import Mathlib

/-!
# Control-plane API facade (`controller/api.go`)

A shallow embedding of the request dispatch, version gate, error translation,
response envelope and configuration resolution of `controller/api.go`, and the
properties proved about them.

* HTTP paths and methods are `String`s; a path is matched on its characters.
* The route table that `Serve` registers on a `mux.Router` is the list `routes`,
  in registration order; `Router.Match` is the table lookup, which picks the first
  route that matches, and `Router.ServeHTTP` is the router as it serves a request:
  it first redirects a path that is not in cleaned form and only then looks a
  route up.
* A handler acts on a connection `Conn`: the state of the `http.ResponseWriter`
  together with the trace of the calls made so far.
* The process environment is a function from variable names to optional values.
-/

namespace Controller

/-! ## Route table -/

/-- The handler functions registered by `Serve`, by their Go names. -/
inductive Handler
  | ApiVersionMismatchHandler
  | HomeHandler
  | PackageApiList | PackageApiCreate | PackageApiGet | PackageApiUpdate | PackageApiDelete
  | FunctionApiList | FunctionApiCreate | FunctionApiGet | FunctionApiUpdate | FunctionApiDelete
  | HTTPTriggerApiList | HTTPTriggerApiCreate | HTTPTriggerApiGet | HTTPTriggerApiUpdate
  | HTTPTriggerApiDelete
  | EnvironmentApiList | EnvironmentApiCreate | EnvironmentApiGet | EnvironmentApiUpdate
  | EnvironmentApiDelete
  | WatchApiList | WatchApiCreate | WatchApiGet | WatchApiUpdate | WatchApiDelete
  | TimeTriggerApiList | TimeTriggerApiCreate | TimeTriggerApiGet | TimeTriggerApiUpdate
  | TimeTriggerApiDelete
  | MessageQueueTriggerApiList | MessageQueueTriggerApiCreate | MessageQueueTriggerApiGet
  | MessageQueueTriggerApiUpdate | MessageQueueTriggerApiDelete
  | FunctionLogsApiPost
  | StorageServiceProxy
  deriving DecidableEq, Repr

/-- The two regular expressions that occur in the path templates of `Serve`:
`defaultVar` is the pattern mux gives a variable written `{name}`, namely `[^/]+`;
`v1Rest` is the pattern written out in `{rest:[a-zA-Z0-9=\-\/]+}`. Both are a
character class repeated one or more times. -/
inductive VarPattern
  | defaultVar
  | v1Rest
  deriving DecidableEq, Repr

/-- The character class of a variable pattern. -/
def VarPattern.accepts : VarPattern → Char → Bool
  | .defaultVar, c => c != '/'
  | .v1Rest, c =>
      (decide ('a' ≤ c) && decide (c ≤ 'z')) || (decide ('A' ≤ c) && decide (c ≤ 'Z'))
        || (decide ('0' ≤ c) && decide (c ≤ '9')) || c == '=' || c == '-' || c == '/'

/-- A path template cut at its braces: literal text, or a named variable with its pattern. -/
inductive Piece
  | lit (text : String)
  | var (name : String) (pat : VarPattern)
  deriving DecidableEq, Repr

/-- A registered route: the path template, the methods given to `.Methods(...)`
(`none` when the route has no method matcher) and the handler. -/
structure Route where
  template : List Piece
  methods : Option (List String)
  handler : Handler
  deriving DecidableEq, Repr

/-- Removes `pre` from the front of `cs`, or fails when `cs` does not start with it. -/
def stripPrefix : List Char → List Char → Option (List Char)
  | [], cs => some cs
  | _ :: _, [] => none
  | p :: ps, c :: cs => if p = c then stripPrefix ps cs else none

/-- One or more characters of the class of `pat`, followed by whatever `k` accepts. -/
def matchVar (pat : VarPattern) (k : List Char → Bool) : List Char → Bool
  | [] => false
  | c :: cs => pat.accepts c && (k cs || matchVar pat k cs)

/-- Whether the whole of `cs` matches the template (mux anchors the compiled
regular expression with `^` and `$`). -/
def matchPieces : List Piece → List Char → Bool
  | [], cs => cs.isEmpty
  | .lit s :: ps, cs =>
      match stripPrefix s.data cs with
      | some rest => matchPieces ps rest
      | none => false
  | .var _ pat :: ps, cs => matchVar pat (matchPieces ps) cs

/-- The path matcher of a route. -/
def Route.matchesPath (r : Route) (path : String) : Bool :=
  matchPieces r.template path.data

/-- The method matcher of a route: absent, or membership in the listed methods. -/
def Route.matchesMethod (r : Route) (method : String) : Bool :=
  match r.methods with
  | none => true
  | some ms => ms.contains method

/-- A route matches a request when all its matchers do. -/
def Route.matches (r : Route) (method path : String) : Bool :=
  r.matchesMethod method && r.matchesPath path

/-- The route table built by `Serve`, one row per `r.HandleFunc` call, in registration
order. A template such as `/v2/packages/{package}` is the literal `/v2/packages/` followed
by the variable `package`. -/
def routes : List Route :=
  [ ⟨[.lit "/v1/", .var "rest" .v1Rest], none, .ApiVersionMismatchHandler⟩,
    ⟨[.lit "/"], none, .HomeHandler⟩,
    ⟨[.lit "/v2/packages"], some ["GET"], .PackageApiList⟩,
    ⟨[.lit "/v2/packages"], some ["POST"], .PackageApiCreate⟩,
    ⟨[.lit "/v2/packages/", .var "package" .defaultVar], some ["GET"], .PackageApiGet⟩,
    ⟨[.lit "/v2/packages/", .var "package" .defaultVar], some ["PUT"], .PackageApiUpdate⟩,
    ⟨[.lit "/v2/packages/", .var "package" .defaultVar], some ["DELETE"], .PackageApiDelete⟩,
    ⟨[.lit "/v2/functions"], some ["GET"], .FunctionApiList⟩,
    ⟨[.lit "/v2/functions"], some ["POST"], .FunctionApiCreate⟩,
    ⟨[.lit "/v2/functions/", .var "function" .defaultVar], some ["GET"], .FunctionApiGet⟩,
    ⟨[.lit "/v2/functions/", .var "function" .defaultVar], some ["PUT"], .FunctionApiUpdate⟩,
    ⟨[.lit "/v2/functions/", .var "function" .defaultVar], some ["DELETE"], .FunctionApiDelete⟩,
    ⟨[.lit "/v2/triggers/http"], some ["GET"], .HTTPTriggerApiList⟩,
    ⟨[.lit "/v2/triggers/http"], some ["POST"], .HTTPTriggerApiCreate⟩,
    ⟨[.lit "/v2/triggers/http/", .var "httpTrigger" .defaultVar], some ["GET"], .HTTPTriggerApiGet⟩,
    ⟨[.lit "/v2/triggers/http/", .var "httpTrigger" .defaultVar], some ["PUT"], .HTTPTriggerApiUpdate⟩,
    ⟨[.lit "/v2/triggers/http/", .var "httpTrigger" .defaultVar], some ["DELETE"], .HTTPTriggerApiDelete⟩,
    ⟨[.lit "/v2/environments"], some ["GET"], .EnvironmentApiList⟩,
    ⟨[.lit "/v2/environments"], some ["POST"], .EnvironmentApiCreate⟩,
    ⟨[.lit "/v2/environments/", .var "environment" .defaultVar], some ["GET"], .EnvironmentApiGet⟩,
    ⟨[.lit "/v2/environments/", .var "environment" .defaultVar], some ["PUT"], .EnvironmentApiUpdate⟩,
    ⟨[.lit "/v2/environments/", .var "environment" .defaultVar], some ["DELETE"], .EnvironmentApiDelete⟩,
    ⟨[.lit "/v2/watches"], some ["GET"], .WatchApiList⟩,
    ⟨[.lit "/v2/watches"], some ["POST"], .WatchApiCreate⟩,
    ⟨[.lit "/v2/watches/", .var "watch" .defaultVar], some ["GET"], .WatchApiGet⟩,
    ⟨[.lit "/v2/watches/", .var "watch" .defaultVar], some ["PUT"], .WatchApiUpdate⟩,
    ⟨[.lit "/v2/watches/", .var "watch" .defaultVar], some ["DELETE"], .WatchApiDelete⟩,
    ⟨[.lit "/v2/triggers/time"], some ["GET"], .TimeTriggerApiList⟩,
    ⟨[.lit "/v2/triggers/time"], some ["POST"], .TimeTriggerApiCreate⟩,
    ⟨[.lit "/v2/triggers/time/", .var "timeTrigger" .defaultVar], some ["GET"], .TimeTriggerApiGet⟩,
    ⟨[.lit "/v2/triggers/time/", .var "timeTrigger" .defaultVar], some ["PUT"], .TimeTriggerApiUpdate⟩,
    ⟨[.lit "/v2/triggers/time/", .var "timeTrigger" .defaultVar], some ["DELETE"], .TimeTriggerApiDelete⟩,
    ⟨[.lit "/v2/triggers/messagequeue"], some ["GET"], .MessageQueueTriggerApiList⟩,
    ⟨[.lit "/v2/triggers/messagequeue"], some ["POST"], .MessageQueueTriggerApiCreate⟩,
    ⟨[.lit "/v2/triggers/messagequeue/", .var "mqTrigger" .defaultVar], some ["GET"], .MessageQueueTriggerApiGet⟩,
    ⟨[.lit "/v2/triggers/messagequeue/", .var "mqTrigger" .defaultVar], some ["PUT"], .MessageQueueTriggerApiUpdate⟩,
    ⟨[.lit "/v2/triggers/messagequeue/", .var "mqTrigger" .defaultVar], some ["DELETE"], .MessageQueueTriggerApiDelete⟩,
    ⟨[.lit "/proxy/", .var "dbType" .defaultVar], some ["POST"], .FunctionLogsApiPost⟩,
    ⟨[.lit "/proxy/storage/v1/archive"], none, .StorageServiceProxy⟩ ]

/-- The routes of a table that match a request, in registration order. -/
def matching (table : List Route) (method path : String) : List Route :=
  table.filter (fun r => r.matches method path)

/-- The method `Match` of `mux.Router`, the table lookup: the handler of the first
registered route that matches, `none` when no route does. -/
def Router.Match (table : List Route) (method path : String) : Option Handler :=
  (table.find? (fun r => r.matches method path)).map (fun r => r.handler)

/-- Whether the method matchers of two routes admit a common method. -/
def methodsMeet (a b : Route) : Bool :=
  match a.methods, b.methods with
  | some ms, some ns => ms.any (fun m => ns.contains m)
  | _, _ => true

/-- A test that is true whenever two templates admit a common path: a template that is
one literal admits only that path; two templates that start with literals need one of
the literals to be a prefix of the other. -/
def templatesMeet : List Piece → List Piece → Bool
  | [.lit s], q => matchPieces q s.data
  | p, [.lit t] => matchPieces p t.data
  | .lit s :: _, .lit t :: _ => s.data.isPrefixOf t.data || t.data.isPrefixOf s.data
  | _, _ => true

/-- A test that is true whenever two routes admit a common request. -/
def mayOverlap (a b : Route) : Bool :=
  methodsMeet a b && templatesMeet a.template b.template

/-- No two different rows of the table pass the overlap test. -/
def pairwiseApart (table : List Route) : Bool :=
  table.all (fun a => table.all (fun b => a == b || !mayOverlap a b))

/-- The seven resource kinds that `Serve` gives five routes each. -/
inductive Kind
  | packages | functions | environments | watches
  | httpTriggers | timeTriggers | messagequeueTriggers
  deriving DecidableEq, Repr

/-- The base path of a resource kind. -/
def Kind.base : Kind → String
  | .packages => "/v2/packages"
  | .functions => "/v2/functions"
  | .environments => "/v2/environments"
  | .watches => "/v2/watches"
  | .httpTriggers => "/v2/triggers/http"
  | .timeTriggers => "/v2/triggers/time"
  | .messagequeueTriggers => "/v2/triggers/messagequeue"

/-- The List handler of a resource kind. -/
def Kind.listHandler : Kind → Handler
  | .packages => .PackageApiList
  | .functions => .FunctionApiList
  | .environments => .EnvironmentApiList
  | .watches => .WatchApiList
  | .httpTriggers => .HTTPTriggerApiList
  | .timeTriggers => .TimeTriggerApiList
  | .messagequeueTriggers => .MessageQueueTriggerApiList

/-- The Create handler of a resource kind. -/
def Kind.createHandler : Kind → Handler
  | .packages => .PackageApiCreate
  | .functions => .FunctionApiCreate
  | .environments => .EnvironmentApiCreate
  | .watches => .WatchApiCreate
  | .httpTriggers => .HTTPTriggerApiCreate
  | .timeTriggers => .TimeTriggerApiCreate
  | .messagequeueTriggers => .MessageQueueTriggerApiCreate

/-- The Get handler of a resource kind. -/
def Kind.getHandler : Kind → Handler
  | .packages => .PackageApiGet
  | .functions => .FunctionApiGet
  | .environments => .EnvironmentApiGet
  | .watches => .WatchApiGet
  | .httpTriggers => .HTTPTriggerApiGet
  | .timeTriggers => .TimeTriggerApiGet
  | .messagequeueTriggers => .MessageQueueTriggerApiGet

/-- The Update handler of a resource kind. -/
def Kind.updateHandler : Kind → Handler
  | .packages => .PackageApiUpdate
  | .functions => .FunctionApiUpdate
  | .environments => .EnvironmentApiUpdate
  | .watches => .WatchApiUpdate
  | .httpTriggers => .HTTPTriggerApiUpdate
  | .timeTriggers => .TimeTriggerApiUpdate
  | .messagequeueTriggers => .MessageQueueTriggerApiUpdate

/-- The Delete handler of a resource kind. -/
def Kind.deleteHandler : Kind → Handler
  | .packages => .PackageApiDelete
  | .functions => .FunctionApiDelete
  | .environments => .EnvironmentApiDelete
  | .watches => .WatchApiDelete
  | .httpTriggers => .HTTPTriggerApiDelete
  | .timeTriggers => .TimeTriggerApiDelete
  | .messagequeueTriggers => .MessageQueueTriggerApiDelete

/-- The handlers of the routes of a table that match a request, in registration order. -/
def matchingHandlers (table : List Route) (method path : String) : List Handler :=
  (matching table method path).map (fun r => r.handler)

/-! ## Errors -/

/-- Modelled from the spec: the generic error kinds of package `fission` (its error
codes such as `fission.ErrorNotFound` are declared outside `controller/api.go`). -/
inductive ErrorKind
  | notFound | invalidArgument | alreadyExists | unauthorized | internal | unknown
  deriving DecidableEq, Repr

/-- The error values that reach the responders, by their dynamic type:
`status` is a non-nil `*kerrors.StatusError`, of which `ErrStatus.Code`,
`ErrStatus.Reason` and `ErrStatus.Message` are kept; `fission` is an error of package
`fission` as built by `fission.MakeError`, with its kind and text; `other` is any
other error, with its text. -/
inductive GoError
  | status (code : Int) (reason : String) (message : String)
  | fission (kind : ErrorKind) (message : String)
  | other (text : String)
  deriving DecidableEq, Repr

/-- Modelled from the spec: the constant `fission.ErrorNotFound`, declared outside
`controller/api.go`; it is the code of the generic not-found kind. -/
def ErrorNotFound : ErrorKind := .notFound

/-- Modelled from the spec: the constructor `fission.MakeError(code, msg)`, declared
outside `controller/api.go`; it builds the generic error of the given kind that
carries the given text. -/
def MakeError (kind : ErrorKind) (msg : String) : GoError := .fission kind msg

/-- Modelled from the spec: the table behind `fission.GetHTTPError`, of which the spec
names the kinds but neither the message text of a kind nor the status of the
already-exists kind. -/
structure KindTable where
  message : ErrorKind → String
  alreadyExistsStatus : Int

/-- Modelled from the spec: the HTTP status of a generic error kind, not-found 404,
invalid-argument 400, internal 500, unauthorized 401, and an unrecognized kind falls
back to the internal-error status. -/
def KindTable.status (t : KindTable) : ErrorKind → Int
  | .notFound => 404
  | .invalidArgument => 400
  | .alreadyExists => t.alreadyExistsStatus
  | .unauthorized => 401
  | .internal => 500
  | .unknown => 500

/-- Modelled from the spec: `fission.GetHTTPError`, which is declared outside
`controller/api.go`. It classifies the error by its generic kind and gives the fixed
status of the kind and the message associated with the kind; an error of no
recognized kind falls back to the internal error. -/
def GetHTTPError (t : KindTable) : GoError → Int × String
  | .fission kind _ => (t.status kind, t.message kind)
  | _ => (t.status .internal, t.message .internal)

/-! ## Response writer and trace -/

/-- The observable calls of a handler, in the order they are made.
`respondWithSuccess` and `respondWithError` record the entry into the two responders,
`getHTTPError` a call of the generic classifier, `storeCall` a call through
`api.fissionClient` (made by the resource handlers only). -/
inductive Event
  | headerSet (key value : String)
  | writeHeader (code : Int)
  | write (data : List UInt8) (err : Option GoError)
  | printStack
  | logErrorf (line : String)
  | respondWithSuccess
  | respondWithError (err : GoError)
  | getHTTPError (err : GoError)
  | storeCall (operation : String)
  deriving DecidableEq, Repr

/-- Whether an event is the entry into one of the two responders. -/
def Event.isResponderEntry : Event → Bool
  | .respondWithSuccess => true
  | .respondWithError _ => true
  | _ => false

/-- Whether an event is the entry into `respondWithError`. -/
def Event.isErrorEntry : Event → Bool
  | .respondWithError _ => true
  | _ => false

/-- Whether an event is a log record. -/
def Event.isLog : Event → Bool
  | .logErrorf _ => true
  | _ => false

/-- An `http.ResponseWriter` with internal state `σ`: `Header().Set`, `WriteHeader` and
`Write`, the last of which may return an error. -/
structure ResponseWriter (σ : Type) where
  headerSet : String → String → σ → σ
  writeHeader : Int → σ → σ
  write : List UInt8 → σ → Option GoError × σ

/-- A connection being answered: the state of the response writer and the calls made
so far, oldest first. -/
structure Conn (σ : Type) where
  w : σ
  trace : List Event

/-- Records an event. -/
def Conn.emit {σ : Type} (e : Event) (c : Conn σ) : Conn σ :=
  { c with trace := c.trace ++ [e] }

/-- The call `w.Header().Set(key, value)`. -/
def Conn.headerSet {σ : Type} (W : ResponseWriter σ) (key value : String) (c : Conn σ) :
    Conn σ :=
  { w := W.headerSet key value c.w, trace := c.trace ++ [.headerSet key value] }

/-- The call `w.WriteHeader(code)`. -/
def Conn.writeHeader {σ : Type} (W : ResponseWriter σ) (code : Int) (c : Conn σ) : Conn σ :=
  { w := W.writeHeader code c.w, trace := c.trace ++ [.writeHeader code] }

/-- The call `w.Write(data)`, with the error it returns. -/
def Conn.write {σ : Type} (W : ResponseWriter σ) (data : List UInt8) (c : Conn σ) :
    Option GoError × Conn σ :=
  ((W.write data c.w).1,
    { w := (W.write data c.w).2, trace := c.trace ++ [.write data (W.write data c.w).1] })

/-- The bytes of a string. -/
def utf8 (s : String) : List UInt8 := s.toUTF8.data.toList

/-- The library function `http.Error(w, msg, code)`: two headers, the status line and
the message followed by a newline; the result of the write is dropped. -/
def httpError {σ : Type} (W : ResponseWriter σ) (msg : String) (code : Int) (c : Conn σ) :
    Conn σ :=
  let c := c.headerSet W "Content-Type" "text/plain; charset=utf-8"
  let c := c.headerSet W "X-Content-Type-Options" "nosniff"
  let c := c.writeHeader W code
  (c.write W (utf8 (msg ++ "\n"))).2

/-- The line logged by `log.Errorf("Error: %v: %v", code, msg)`. -/
def errorLine (code : Int) (msg : String) : String :=
  "Error: " ++ toString code ++ ": " ++ msg

/-! ## Responders and handlers -/

/-- The method `respondWithError`; `classify` is `fission.GetHTTPError`. -/
def respondWithError {σ : Type} (W : ResponseWriter σ) (classify : GoError → Int × String)
    (err : GoError) (c : Conn σ) : Conn σ :=
  let c := c.emit (.respondWithError err)
  let c := c.emit .printStack
  match err with
  | .status code reason _ => httpError W reason code c
  | _ =>
    let c := c.emit (.getHTTPError err)
    let code := (classify err).1
    let msg := (classify err).2
    let c := c.emit (.logErrorf (errorLine code msg))
    httpError W msg code c

/-- The method `respondWithSuccess`. -/
def respondWithSuccess {σ : Type} (W : ResponseWriter σ) (classify : GoError → Int × String)
    (resp : List UInt8) (c : Conn σ) : Conn σ :=
  let c := c.emit .respondWithSuccess
  let c := c.headerSet W "Content-Type" "application/json; charset=utf-8"
  match c.write W resp with
  | (some err, c) => respondWithError W classify err c
  | (none, c) => c

/-- The body that `HomeHandler` prints; the format string has no verb, so `fmt.Fprintf`
writes it as it stands. -/
def homeBody : String :=
  "\x7b\"message\": \"Fission API\", \"version\": \"0.2.1-rc2\"\x7d\n"

/-- The method `HomeHandler`. -/
def HomeHandler {σ : Type} (W : ResponseWriter σ) (c : Conn σ) : Conn σ :=
  let c := c.headerSet W "Content-Type" "application/json; charset=utf-8"
  (c.write W (utf8 homeBody)).2

/-- The message that `ApiVersionMismatchHandler` builds its error with. -/
def versionMismatchMessage : String :=
  "Fission server supports API v2 only -- v1 is not supported. Please upgrade your Fission client/CLI."

/-- The method `ApiVersionMismatchHandler`. -/
def ApiVersionMismatchHandler {σ : Type} (W : ResponseWriter σ)
    (classify : GoError → Int × String) (c : Conn σ) : Conn σ :=
  let err := MakeError ErrorNotFound versionMismatchMessage
  respondWithError W classify err c

/-! ## Configuration from the environment -/

/-- The process environment: the value of each variable that is set. -/
abbrev Env := String → Option String

/-- The library function `os.Getenv`: the value, or the empty string when unset. -/
def Getenv (env : Env) (key : String) : String := (env key).getD ""

/-- The library function `unicode.ToUpper`: up to `MaxASCII` (127) a rune from `a` (97)
to `z` (122) is lowered by `'a' - 'A'` (32) and any other is kept; the runes above go
through the Unicode case table, which is the parameter `table`. -/
def unicodeToUpper (table : Char → Char) (r : Char) : Char :=
  if r.toNat ≤ 127 then
    (if 97 ≤ r.toNat ∧ r.toNat ≤ 122 then Char.ofNat (r.toNat - 32) else r)
  else table r

/-- The library function `strings.ToUpper`. -/
def ToUpper (table : Char → Char) (s : String) : String :=
  ⟨s.data.map (unicodeToUpper table)⟩

/-- The struct `logDBConfig`. -/
structure logDBConfig where
  httpURL : String
  username : String
  password : String
  deriving DecidableEq, Repr

/-- The method `getLogDBConfig`; `INFLUXDB_URL` is the constant `logdb.INFLUXDB_URL`,
declared outside `controller/api.go`. -/
def getLogDBConfig (table : Char → Char) (INFLUXDB_URL : String) (env : Env)
    (dbType : String) : logDBConfig :=
  let dbType := ToUpper table dbType
  let url := Getenv env (dbType ++ "_URL")
  let url := if url = "" then INFLUXDB_URL else url
  let username := Getenv env (dbType ++ "_USERNAME")
  let password := Getenv env (dbType ++ "_PASSWORD")
  { httpURL := url, username := username, password := password }

/-- The library function `strings.HasSuffix`. -/
def HasSuffix (s suffix : String) : Bool := suffix.data.isSuffixOf s.data

/-- The library function `strings.TrimSuffix`: `s` without the suffix when it ends in
it, `s` itself otherwise. -/
def TrimSuffix (s suffix : String) : String :=
  if HasSuffix s suffix then ⟨s.data.take (s.data.length - suffix.data.length)⟩ else s

/-- The struct `API`; `κ` is the type of the client `*tpr.FissionClient`. -/
structure API (κ : Type) where
  fissionClient : κ
  storageServiceUrl : String

/-- The function `MakeAPI`. The pair `backed` is what `makeTPRBackedAPI()` returns (it is
declared outside `controller/api.go`): a pointer that may be nil, and an error. The
result is `none` when the assignment goes through a nil pointer, which panics. -/
def MakeAPI {κ : Type} (env : Env) (backed : Option (API κ) × Option GoError) :
    Option (API κ × Option GoError) :=
  match backed with
  | (none, _) => none
  | (some api, err) =>
    let u := Getenv env "STORAGE_SERVICE_URL"
    if u.length > 0 then
      some ({ api with storageServiceUrl := TrimSuffix u "/" }, err)
    else
      some ({ api with storageServiceUrl := "http://storagesvc" }, err)

/-! ## Reading a flat JSON object -/

/-- Drops JSON white space from the front. -/
def skipWs : List Char → List Char
  | [] => []
  | c :: cs => if c = ' ' ∨ c = '\n' ∨ c = '\t' ∨ c = '\r' then skipWs cs else c :: cs

/-- Reads a JSON string without escapes, from just after its opening quote: the
characters up to the closing quote, and what follows it. -/
def readString : List Char → Option (List Char × List Char)
  | [] => none
  | c :: cs =>
    if c = '"' then some ([], cs)
    else if c = '\\' ∨ c.toNat < 32 then none
    else (readString cs).map (fun r => (c :: r.1, r.2))

/-- Reads the members of a JSON object whose values are strings, from just after the
opening brace or a comma, and gives the keys in order; nothing but white space may
follow the closing brace. -/
def readMembers : Nat → List Char → Option (List String)
  | 0, _ => none
  | fuel + 1, cs =>
    match skipWs cs with
    | '"' :: r1 =>
      match readString r1 with
      | some (key, r2) =>
        match skipWs r2 with
        | ':' :: r3 =>
          match skipWs r3 with
          | '"' :: r4 =>
            match readString r4 with
            | some (_, r5) =>
              match skipWs r5 with
              | ',' :: r6 => (readMembers fuel r6).map (fun ks => String.mk key :: ks)
              | '\x7d' :: r6 => if skipWs r6 = [] then some [String.mk key] else none
              | _ => none
            | none => none
          | _ => none
        | _ => none
      | none => none
    | _ => none

/-- The keys of a text that is a non-empty JSON object with string values. -/
def jsonObjectKeys (s : String) : Option (List String) :=
  match skipWs s.data with
  | '\x7b' :: r => readMembers s.data.length r
  | _ => none

/-- The name of the path variable in the three named routes of a resource kind. -/
def Kind.varName : Kind → String
  | .packages => "package"
  | .functions => "function"
  | .environments => "environment"
  | .watches => "watch"
  | .httpTriggers => "httpTrigger"
  | .timeTriggers => "timeTrigger"
  | .messagequeueTriggers => "mqTrigger"

/-- Whether an error is a `*kerrors.StatusError`. -/
def GoError.isStatus : GoError → Bool
  | .status _ _ _ => true
  | _ => false

/-- The calls that `http.Error(w, msg, code)` makes on the writer, `res` being what the
final write returns. -/
def httpErrorEvents (msg : String) (code : Int) (res : Option GoError) : List Event :=
  [ .headerSet "Content-Type" "text/plain; charset=utf-8",
    .headerSet "X-Content-Type-Options" "nosniff",
    .writeHeader code,
    .write (utf8 (msg ++ "\n")) res ]

/-- A response writer without state whose every write succeeds. -/
def okWriter : ResponseWriter Unit :=
  { headerSet := fun _ _ s => s, writeHeader := fun _ s => s, write := fun _ s => (none, s) }

/-- A response writer without state whose every write fails with the given error. -/
def brokenWriter (err : GoError) : ResponseWriter Unit :=
  { headerSet := fun _ _ s => s, writeHeader := fun _ s => s, write := fun _ s => (some err, s) }

/-- Whether an event is a call of the generic classifier. -/
def Event.isClassifierCall : Event → Bool
  | .getHTTPError _ => true
  | _ => false

/-- Whether an event is a diagnostic: the stack capture or a log record. -/
def Event.isDiagnostic : Event → Bool
  | .printStack => true
  | .logErrorf _ => true
  | _ => false

/-- Whether an event is a write of body bytes. -/
def Event.isWrite : Event → Bool
  | .write _ _ => true
  | _ => false

/-- Whether an event sets the status line. -/
def Event.isWriteHeader : Event → Bool
  | .writeHeader _ => true
  | _ => false

/-- Two characters that are equal or are the two cases of one ASCII letter. -/
def sameLetter (a b : Char) : Prop :=
  a = b ∨ (65 ≤ a.toNat ∧ a.toNat ≤ 90 ∧ b.toNat = a.toNat + 32)
    ∨ (65 ≤ b.toNat ∧ b.toNat ≤ 90 ∧ a.toNat = b.toNat + 32)

/-- Two names that differ only in the case of their ASCII letters. -/
def differOnlyInCase (s t : String) : Prop :=
  List.Forall₂ sameLetter s.data t.data

/-! ## Serving a request -/

/-- The elements of a path between its slashes; the text after the last slash is the
last element, empty when the path ends in a slash. -/
def splitSlash : List Char → List (List Char)
  | [] => [[]]
  | c :: cs =>
    if c = '/' then [] :: splitSlash cs
    else
      match splitSlash cs with
      | s :: ss => (c :: s) :: ss
      | [] => [[c]]

/-- The pass of the library function `path.Clean` over the elements of a rooted path,
left to right; `kept` holds the elements kept so far, the last one first. An empty
element and `.` are dropped, `..` removes the element kept last (nothing at the
root), any other element is kept. -/
def cleanElems : List (List Char) → List (List Char) → List (List Char)
  | [], kept => kept
  | e :: es, kept =>
    if e = [] ∨ e = ['.'] then cleanElems es kept
    else if e = ['.', '.'] then cleanElems es kept.tail
    else cleanElems es (e :: kept)

/-- The elements written out, each after a slash. -/
def joinSlash : List (List Char) → List Char
  | [] => []
  | e :: es => '/' :: e ++ joinSlash es

/-- The library function `path.Clean` on the rooted path `/` followed by `rest`: the kept
elements after single slashes, or `/` alone when none is kept. -/
def cleanRooted (rest : List Char) : List Char :=
  match (cleanElems (splitSlash rest) []).reverse with
  | [] => ['/']
  | e :: es => joinSlash (e :: es)

/-- The function `cleanPath` of mux: the empty path becomes `/`, a path that does not
start with a slash is given one, the path is cleaned by `path.Clean`, and the
trailing slash that `path.Clean` removes is put back unless the result is `/`. -/
def cleanPath (p : String) : String :=
  match p.data with
  | [] => "/"
  | c :: cs =>
    let rest := if c = '/' then cs else c :: cs
    let np := cleanRooted rest
    if (c :: cs).getLast? = some '/' ∧ np ≠ ['/'] then ⟨np ++ ['/']⟩ else ⟨np⟩

/-- What the router does with a request: it redirects to the cleaned path (status 301,
no handler runs), or runs the handler of the matched route, or answers itself when no
route matches. -/
inductive Served
  | redirect (location : String)
  | handler (h : Handler)
  | noRoute
  deriving DecidableEq, Repr

/-- The method `ServeHTTP` of the `mux.Router` that `Serve` hands to
`http.ListenAndServe`. The router is made by `mux.NewRouter()` and path cleaning is
left on: a path that differs from its cleaned form is redirected before any route is
tried; otherwise the table is consulted. -/
def Router.ServeHTTP (table : List Route) (method path : String) : Served :=
  if cleanPath path ≠ path then .redirect (cleanPath path)
  else
    match Router.Match table method path with
    | some h => .handler h
    | none => .noRoute

/-- A path element that `path.Clean` keeps: not empty, not `.` and not `..`. -/
def isRealElem (e : List Char) : Bool :=
  e != [] && e != ['.'] && e != ['.', '.']

/-- Appends text to the last element. -/
def appendLast : List (List Char) → List Char → List (List Char)
  | [], b => [b]
  | [e], b => [e ++ b]
  | e :: f :: es, b => e :: appendLast (f :: es) b

/-- Whether a path is a clean directory prefix: a slash, elements that `path.Clean`
keeps, each followed by a slash. -/
def isCleanDir (pre : String) : Bool :=
  match pre.data with
  | '/' :: r => (splitSlash r).getLast? == some [] && (splitSlash r).dropLast.all isRealElem
  | _ => false

theorem stripPrefix_eq_some (p cs r : List Char) :
    stripPrefix p cs = some r ↔ cs = p ++ r := by
  induction p generalizing cs with
  | nil => simp [stripPrefix, eq_comm]
  | cons a p ih =>
    cases cs with
    | nil => simp [stripPrefix]
    | cons c cs =>
      by_cases h : a = c
      · subst h; simp [stripPrefix, ih]
      · simp [stripPrefix, h, Ne.symm h]

theorem stripPrefix_append (p r : List Char) : stripPrefix p (p ++ r) = some r :=
  (stripPrefix_eq_some p (p ++ r) r).2 rfl

theorem matchPieces_lit_append (s : String) (ps : List Piece) (r : List Char) :
    matchPieces (.lit s :: ps) (s.data ++ r) = matchPieces ps r := by
  simp [matchPieces, stripPrefix_append]

theorem matchPieces_lit_iff (s : String) (ps : List Piece) (cs : List Char) :
    matchPieces (.lit s :: ps) cs = true ↔ ∃ r, cs = s.data ++ r ∧ matchPieces ps r = true := by
  constructor
  · intro hm
    rw [matchPieces] at hm
    cases h : stripPrefix s.data cs with
    | none => rw [h] at hm; cases hm
    | some r =>
      rw [h] at hm
      exact ⟨r, (stripPrefix_eq_some _ _ _).1 h, hm⟩
  · rintro ⟨r, h1, h2⟩
    rw [h1, matchPieces_lit_append]; exact h2

theorem matchPieces_single_lit (s : String) (cs : List Char) :
    matchPieces [.lit s] cs = true ↔ cs = s.data := by
  rw [matchPieces_lit_iff]
  constructor
  · rintro ⟨r, h1, h2⟩
    cases r with
    | nil => simpa using h1
    | cons a r => simp [matchPieces] at h2
  · intro h; exact ⟨[], by simp [h], by simp [matchPieces]⟩

theorem matchVar_last (pat : VarPattern) (cs : List Char) :
    matchVar pat (matchPieces []) cs = true ↔ cs ≠ [] ∧ ∀ c ∈ cs, pat.accepts c = true := by
  induction cs with
  | nil => simp [matchVar]
  | cons c cs ih =>
    cases cs with
    | nil => simp [matchVar, matchPieces]
    | cons d ds =>
      have ih2 := ih
      simp only [ne_eq, reduceCtorEq, not_false_eq_true, true_and] at ih2
      simp only [matchVar, matchPieces, List.isEmpty_cons, Bool.false_or, Bool.and_eq_true,
        ne_eq, reduceCtorEq, not_false_eq_true, List.mem_cons, forall_eq_or_imp, true_and]
      simp only [matchVar, Bool.and_eq_true, List.mem_cons, forall_eq_or_imp] at ih2
      rw [← ih2]
      simp [matchPieces]

theorem templatesMeet_sound (p q : List Piece) (cs : List Char)
    (hp : matchPieces p cs = true) (hq : matchPieces q cs = true) :
    templatesMeet p q = true := by
  unfold templatesMeet
  split
  · rename_i s
    rw [matchPieces_single_lit] at hp
    subst hp; exact hq
  · rename_i t _
    rw [matchPieces_single_lit] at hq
    subst hq; exact hp
  · rename_i s ps t qs _ _
    obtain ⟨r1, h1, -⟩ := (matchPieces_lit_iff _ _ _).1 hp
    obtain ⟨r2, h2, -⟩ := (matchPieces_lit_iff _ _ _).1 hq
    have hs : s.data <+: cs := ⟨r1, h1.symm⟩
    have ht : t.data <+: cs := ⟨r2, h2.symm⟩
    rcases List.prefix_or_prefix_of_prefix hs ht with h | h
    · simp [List.isPrefixOf_iff_prefix, h]
    · simp [List.isPrefixOf_iff_prefix, h]
  · rfl

theorem methodsMeet_sound (a b : Route) (m : String)
    (ha : a.matchesMethod m = true) (hb : b.matchesMethod m = true) :
    methodsMeet a b = true := by
  unfold methodsMeet
  unfold Route.matchesMethod at ha hb
  split
  · rename_i ms ns h1 h2
    rw [h1] at ha; rw [h2] at hb
    simp only [List.any_eq_true]
    exact ⟨m, by simpa using ha, hb⟩
  · rfl

theorem mayOverlap_sound (a b : Route) (m p : String)
    (ha : a.matches m p = true) (hb : b.matches m p = true) : mayOverlap a b = true := by
  simp only [Route.matches, Bool.and_eq_true] at ha hb
  simp only [mayOverlap, Bool.and_eq_true]
  exact ⟨methodsMeet_sound a b m ha.1 hb.1,
    templatesMeet_sound _ _ _ ha.2 hb.2⟩

theorem routes_pairwiseApart : pairwiseApart routes = true := by decide

theorem routes_nodup : routes.Nodup := by decide

theorem routes_apart (a b : Route) (ha : a ∈ routes) (hb : b ∈ routes) (hne : a ≠ b) :
    mayOverlap a b = false := by
  have h := routes_pairwiseApart
  simp only [pairwiseApart, List.all_eq_true] at h
  have h2 := h a ha b hb
  simpa [hne] using h2

/-- At most one row of the table of `Serve` matches a request. -/
theorem routes_match_unique (method path : String) (a b : Route)
    (ha : a ∈ routes) (hb : b ∈ routes)
    (hma : a.matches method path = true) (hmb : b.matches method path = true) : a = b := by
  by_contra hne
  have h1 := routes_apart a b ha hb hne
  have h2 := mayOverlap_sound a b method path hma hmb
  rw [h1] at h2
  cases h2

theorem length_le_one_of_all_eq {α : Type} (l : List α) (hnd : l.Nodup)
    (h : ∀ a ∈ l, ∀ b ∈ l, a = b) : l.length ≤ 1 := by
  match l, hnd, h with
  | [], _, _ => simp
  | [_], _, _ => simp
  | x :: y :: t, hnd, h =>
    have hxy : x = y := h x (by simp) y (by simp)
    subst hxy
    simp at hnd

theorem matching_length_le_one (method path : String) :
    (matching routes method path).length ≤ 1 := by
  apply length_le_one_of_all_eq
  · exact routes_nodup.filter _
  · intro a ha b hb
    simp only [matching, List.mem_filter] at ha hb
    exact routes_match_unique method path a b ha.1 hb.1 ha.2 hb.2

/-- A matching row is the whole answer: it is the only matching row and it is the
row the router picks. -/
theorem dispatch_of_matches (r : Route) (method path : String) (hr : r ∈ routes)
    (hm : r.matches method path = true) :
    matching routes method path = [r] ∧ Router.Match routes method path = some r.handler := by
  have hmem : r ∈ matching routes method path := by
    simp only [matching, List.mem_filter]; exact ⟨hr, hm⟩
  have hlen := matching_length_le_one method path
  constructor
  · match hl : matching routes method path, hmem, hlen with
    | [x], hmem, _ =>
      simp only [List.mem_singleton] at hmem
      rw [hmem]
    | _ :: _ :: _, _, hlen => simp at hlen
  · unfold Router.Match
    cases hf : routes.find? (fun r => r.matches method path) with
    | none =>
      rw [List.find?_eq_none] at hf
      exact absurd hm (hf r hr)
    | some x =>
      have hx1 : x ∈ routes := List.mem_of_find?_eq_some hf
      have hx2 : x.matches method path = true := by
        have := List.find?_some hf
        simpa using this
      rw [routes_match_unique method path x r hx1 hr hx2 hm]
      rfl

/-- The router's choice does not depend on the order of registration. -/
theorem match_perm (table : List Route) (hp : table.Perm routes) (method path : String) :
    Router.Match table method path = Router.Match routes method path := by
  unfold Router.Match
  cases hf : routes.find? (fun r => r.matches method path) with
  | none =>
    rw [List.find?_eq_none] at hf
    have : table.find? (fun r => r.matches method path) = none := by
      rw [List.find?_eq_none]
      intro x hx
      exact hf x (hp.mem_iff.1 hx)
    rw [this]
  | some x =>
    have hx1 : x ∈ routes := List.mem_of_find?_eq_some hf
    have hx2 : x.matches method path = true := by
      have := List.find?_some hf
      simpa using this
    cases hg : table.find? (fun r => r.matches method path) with
    | none =>
      rw [List.find?_eq_none] at hg
      exact absurd hx2 (hg x (hp.mem_iff.2 hx1))
    | some y =>
      have hy1 : y ∈ routes := hp.mem_iff.1 (List.mem_of_find?_eq_some hg)
      have hy2 : y.matches method path = true := by
        have := List.find?_some hg
        simpa using this
      rw [routes_match_unique method path y x hy1 hx1 hy2 hx2]

/-- A literal followed by a last variable matches the literal followed by a non-empty
text of the class of the variable. -/
theorem matchPieces_lit_var (s name : String) (pat : VarPattern) (n : String)
    (hn : n ≠ "") (hall : ∀ c ∈ n.data, pat.accepts c = true) :
    matchPieces [.lit s, .var name pat] (s ++ n).data = true := by
  rw [String.data_append, matchPieces_lit_append]
  show matchVar pat (matchPieces []) n.data = true
  rw [matchVar_last]
  refine ⟨?_, hall⟩
  intro h
  apply hn
  cases n
  simp_all

/-- C10. The table of `Serve` has 39 rows, and for every method and path at most one of
them matches the request (any two matching rows are the same row, and the list of
matching rows has at most one element), so the handler the router picks is the same
for every order of registration; and a path that matches the `/v1/` gate pattern
matches the path template of no other row, whatever the methods; what the router
serves, redirect included, is the same for every order of registration too. -/
theorem route_table_unambiguous (method path : String) :
    routes.length = 39
    ∧ (∀ a ∈ routes, ∀ b ∈ routes,
        a.matches method path = true → b.matches method path = true → a = b)
    ∧ (matching routes method path).length ≤ 1
    ∧ (∀ table : List Route, table.Perm routes →
        Router.Match table method path = Router.Match routes method path)
    ∧ (∀ r ∈ routes, r.handler ≠ .ApiVersionMismatchHandler →
        ¬ (matchPieces [.lit "/v1/", .var "rest" .v1Rest] path.data = true
            ∧ r.matchesPath path = true))
    ∧ (∀ table : List Route, table.Perm routes →
        Router.ServeHTTP table method path = Router.ServeHTTP routes method path) := by
  refine ⟨rfl, fun a ha b hb hma hmb => routes_match_unique method path a b ha hb hma hmb,
    matching_length_le_one method path,
    fun table hp => match_perm table hp method path, ?_,
    fun table hp => by unfold Router.ServeHTTP; rw [match_perm table hp method path]⟩
  intro r hr hne ⟨h1, h2⟩
  have hmeet := templatesMeet_sound _ _ _ h1 h2
  have hall : routes.all (fun r => r.handler == .ApiVersionMismatchHandler ||
      !templatesMeet [.lit "/v1/", .var "rest" .v1Rest] r.template) = true := by decide
  rw [List.all_eq_true] at hall
  have := hall r hr
  simp [hne, hmeet] at this

/-! ## Theorems: cleaned paths -/

theorem splitSlash_ne_nil (r : List Char) : splitSlash r ≠ [] := by
  cases r with
  | nil => simp [splitSlash]
  | cons c cs =>
    unfold splitSlash
    split
    · simp
    · split <;> simp

theorem joinSlash_splitSlash (r : List Char) : joinSlash (splitSlash r) = '/' :: r := by
  induction r with
  | nil => simp [splitSlash, joinSlash]
  | cons c cs ih =>
    by_cases h : c = '/'
    · simp [splitSlash, h, joinSlash, ih]
    · cases hs : splitSlash cs with
      | nil => exact absurd hs (splitSlash_ne_nil cs)
      | cons s ss =>
        rw [hs] at ih
        have ih2 : s ++ joinSlash ss = cs := by simpa [joinSlash] using ih
        simp [splitSlash, h, hs, joinSlash, ih2]

theorem splitSlash_slashfree (b : List Char) (hb : ∀ c ∈ b, c ≠ '/') : splitSlash b = [b] := by
  induction b with
  | nil => rfl
  | cons c cs ih =>
    have hc : c ≠ '/' := hb c (by simp)
    have hcs := ih (fun d hd => hb d (by simp [hd]))
    simp [splitSlash, hc, hcs]

theorem appendLast_cons (e : List Char) (es : List (List Char)) (b : List Char)
    (h : es ≠ []) : appendLast (e :: es) b = e :: appendLast es b := by
  cases es with
  | nil => exact absurd rfl h
  | cons f fs => rfl

theorem splitSlash_append (a b : List Char) (hb : ∀ c ∈ b, c ≠ '/') :
    splitSlash (a ++ b) = appendLast (splitSlash a) b := by
  induction a with
  | nil => simp [splitSlash, appendLast, splitSlash_slashfree b hb]
  | cons c cs ih =>
    by_cases h : c = '/'
    · simp [splitSlash, h, ih, appendLast_cons _ _ _ (splitSlash_ne_nil cs)]
    · cases hs : splitSlash cs with
      | nil => exact absurd hs (splitSlash_ne_nil cs)
      | cons s ss =>
        rw [hs] at ih
        cases ss with
        | nil => simp [splitSlash, h, hs, ih, appendLast]
        | cons f fs => simp [splitSlash, h, hs, ih, appendLast]

theorem appendLast_concat_nil (segs : List (List Char)) (b : List Char) :
    appendLast (segs ++ [[]]) b = segs ++ [b] := by
  induction segs with
  | nil => simp [appendLast]
  | cons e es ih =>
    rw [List.cons_append, appendLast_cons _ _ _ (by simp), ih]
    rfl

theorem cleanElems_real (segs kept : List (List Char))
    (h : ∀ e ∈ segs, isRealElem e = true) : cleanElems segs kept = segs.reverse ++ kept := by
  induction segs generalizing kept with
  | nil => rfl
  | cons e es ih =>
    have he := h e (by simp)
    simp only [isRealElem, Bool.and_eq_true, bne_iff_ne, ne_eq] at he
    obtain ⟨⟨h1, h2⟩, h3⟩ := he
    rw [cleanElems, if_neg (by simp [h1, h2]), if_neg h3,
      ih _ (fun x hx => h x (by simp [hx]))]
    simp

theorem cleanRooted_of_real (r : List Char)
    (h : ∀ e ∈ splitSlash r, isRealElem e = true) : cleanRooted r = '/' :: r := by
  unfold cleanRooted
  rw [cleanElems_real _ _ h]
  simp only [List.append_nil, List.reverse_reverse]
  cases hs : splitSlash r with
  | nil => exact absurd hs (splitSlash_ne_nil r)
  | cons e es =>
    show joinSlash (e :: es) = '/' :: r
    rw [← hs, joinSlash_splitSlash]

theorem data_ne_of_ne (n : String) (l : List Char) (h : n ≠ ⟨l⟩) : n.data ≠ l := by
  intro hd
  apply h
  cases n
  simp_all

/-- A clean directory prefix followed by a name that `path.Clean` keeps is in cleaned
form. -/
theorem cleanPath_dir_name (pre n : String) (hpre : isCleanDir pre = true) (hn : n ≠ "")
    (hs : ∀ c ∈ n.data, c ≠ '/') (h1 : n ≠ ".") (h2 : n ≠ "..") :
    cleanPath (pre ++ n) = pre ++ n := by
  have hn0 : n.data ≠ [] := data_ne_of_ne n [] hn
  have hn1 : n.data ≠ ['.'] := data_ne_of_ne n ['.'] h1
  have hn2 : n.data ≠ ['.', '.'] := data_ne_of_ne n ['.', '.'] h2
  unfold isCleanDir at hpre
  split at hpre
  · rename_i r hr
    simp only [Bool.and_eq_true, beq_iff_eq, List.all_eq_true] at hpre
    obtain ⟨hlast, hall⟩ := hpre
    have hsplit : splitSlash r = (splitSlash r).dropLast ++ [[]] := by
      have := List.dropLast_append_getLast? [] hlast
      exact this.symm
    have hsp : splitSlash (r ++ n.data) = (splitSlash r).dropLast ++ [n.data] := by
      rw [splitSlash_append r n.data hs, hsplit, appendLast_concat_nil]
      simp
    have hreal : ∀ e ∈ splitSlash (r ++ n.data), isRealElem e = true := by
      intro e he
      rw [hsp, List.mem_append, List.mem_singleton] at he
      rcases he with he | he
      · exact hall e he
      · rw [he]; simp [isRealElem, hn0, hn1, hn2]
    have hclean := cleanRooted_of_real (r ++ n.data) hreal
    have hdata : (pre ++ n).data = '/' :: (r ++ n.data) := by
      rw [String.data_append, hr]; rfl
    have hlastc : ('/' :: (r ++ n.data)).getLast? ≠ some '/' := by
      intro hl
      have hmem : '/' ∈ n.data := by
        have h3 : ('/' :: (r ++ n.data)) = ('/' :: r) ++ n.data := rfl
        rw [h3, List.getLast?_append_of_ne_nil _ hn0] at hl
        exact List.mem_of_getLast?_eq_some hl
      exact hs '/' hmem rfl
    apply String.ext
    unfold cleanPath
    rw [hdata]
    simp only [if_true, hclean]
    rw [if_neg (fun h => hlastc h.1)]
  · simp at hpre

theorem base_slash_clean (k : Kind) : isCleanDir (k.base ++ "/") = true := by
  cases k <;> decide

theorem base_clean (k : Kind) : cleanPath k.base = k.base := by
  cases k <;> decide

/-- A request whose path is in cleaned form and which a row of the table matches is
served by the handler of that row, and no other row matches it. -/
theorem served_of_matches (r : Route) (method path : String) (hr : r ∈ routes)
    (hc : cleanPath path = path) (hm : r.matches method path = true) :
    Router.ServeHTTP routes method path = .handler r.handler
      ∧ matchingHandlers routes method path = [r.handler] := by
  obtain ⟨h1, h2⟩ := dispatch_of_matches r method path hr hm
  refine ⟨?_, by simp [matchingHandlers, h1]⟩
  unfold Router.ServeHTTP
  rw [if_neg (by simp [hc]), h2]

theorem list_route_mem (k : Kind) :
    (⟨[.lit k.base], some ["GET"], k.listHandler⟩ : Route) ∈ routes := by
  cases k <;> decide

theorem create_route_mem (k : Kind) :
    (⟨[.lit k.base], some ["POST"], k.createHandler⟩ : Route) ∈ routes := by
  cases k <;> decide

theorem get_route_mem (k : Kind) :
    (⟨[.lit (k.base ++ "/"), .var k.varName .defaultVar], some ["GET"], k.getHandler⟩ : Route)
      ∈ routes := by
  cases k <;> decide

theorem update_route_mem (k : Kind) :
    (⟨[.lit (k.base ++ "/"), .var k.varName .defaultVar], some ["PUT"], k.updateHandler⟩ : Route)
      ∈ routes := by
  cases k <;> decide

theorem delete_route_mem (k : Kind) :
    (⟨[.lit (k.base ++ "/"), .var k.varName .defaultVar], some ["DELETE"], k.deleteHandler⟩ :
      Route) ∈ routes := by
  cases k <;> decide

/-- A request that a row of the table matches is dispatched to the handler of that row
and to no other. -/
theorem handlers_of_matches (r : Route) (method path : String) (hr : r ∈ routes)
    (hm : r.matches method path = true) :
    Router.Match routes method path = some r.handler
      ∧ matchingHandlers routes method path = [r.handler] := by
  obtain ⟨h1, h2⟩ := dispatch_of_matches r method path hr hm
  exact ⟨h2, by simp [matchingHandlers, h1]⟩

theorem matches_base (base : String) (m : String) (h : Handler) :
    (⟨[.lit base], some [m], h⟩ : Route).matches m base = true := by
  simp [Route.matches, Route.matchesMethod, Route.matchesPath, matchPieces_single_lit]

theorem matches_named (lit varName m : String) (h : Handler) (n : String)
    (hn : n ≠ "") (hs : ∀ c ∈ n.data, c ≠ '/') :
    (⟨[.lit lit, .var varName .defaultVar], some [m], h⟩ : Route).matches m (lit ++ n)
      = true := by
  have hp := matchPieces_lit_var lit varName .defaultVar n hn
    (by intro c hc; simp [VarPattern.accepts, hs c hc])
  simp only [Route.matches, Route.matchesMethod, Route.matchesPath, hp]
  simp

/-- Counterexample to C2: the names `..` and `.` are not empty and hold no slash, yet a
request for them is redirected to the cleaned path and no handler runs. -/
theorem dot_names_redirected :
    (".." ≠ "" ∧ ∀ c ∈ "..".data, c ≠ '/')
    ∧ Router.ServeHTTP routes "GET" ("/v2/packages" ++ "/" ++ "..") = .redirect "/v2"
    ∧ Router.ServeHTTP routes "PUT" ("/v2/packages" ++ "/" ++ "..") = .redirect "/v2"
    ∧ Router.ServeHTTP routes "DELETE" ("/v2/triggers/http" ++ "/" ++ ".")
        = .redirect "/v2/triggers/http" := by decide

/-- C2, amended. For each of the seven resource kinds and every name that is not empty,
holds no slash and is neither `.` nor `..`, the router serves `GET` and `POST` on the
base path by the List and Create handlers and `GET`, `PUT` and `DELETE` on the base
path followed by the name by the Get, Update and Delete handlers; in each case that
handler is the only handler of a registered route that matches the request. -/
theorem resource_dispatch (k : Kind) (n : String) (hn : n ≠ "")
    (hs : ∀ c ∈ n.data, c ≠ '/') (h1 : n ≠ ".") (h2 : n ≠ "..") :
    (Router.ServeHTTP routes "GET" k.base = .handler k.listHandler
      ∧ matchingHandlers routes "GET" k.base = [k.listHandler])
    ∧ (Router.ServeHTTP routes "POST" k.base = .handler k.createHandler
      ∧ matchingHandlers routes "POST" k.base = [k.createHandler])
    ∧ (Router.ServeHTTP routes "GET" (k.base ++ "/" ++ n) = .handler k.getHandler
      ∧ matchingHandlers routes "GET" (k.base ++ "/" ++ n) = [k.getHandler])
    ∧ (Router.ServeHTTP routes "PUT" (k.base ++ "/" ++ n) = .handler k.updateHandler
      ∧ matchingHandlers routes "PUT" (k.base ++ "/" ++ n) = [k.updateHandler])
    ∧ (Router.ServeHTTP routes "DELETE" (k.base ++ "/" ++ n) = .handler k.deleteHandler
      ∧ matchingHandlers routes "DELETE" (k.base ++ "/" ++ n) = [k.deleteHandler]) := by
  have hc := cleanPath_dir_name (k.base ++ "/") n (base_slash_clean k) hn hs h1 h2
  exact
    ⟨served_of_matches _ _ _ (list_route_mem k) (base_clean k) (matches_base _ _ _),
     served_of_matches _ _ _ (create_route_mem k) (base_clean k) (matches_base _ _ _),
     served_of_matches _ _ _ (get_route_mem k) hc (matches_named _ _ _ _ n hn hs),
     served_of_matches _ _ _ (update_route_mem k) hc (matches_named _ _ _ _ n hn hs),
     served_of_matches _ _ _ (delete_route_mem k) hc (matches_named _ _ _ _ n hn hs)⟩

/-- Witness of C2, amended: packages and the name `hello`. -/
theorem resource_dispatch_witness :
    (Router.ServeHTTP routes "GET" "/v2/packages" = .handler .PackageApiList
      ∧ matchingHandlers routes "GET" "/v2/packages" = [.PackageApiList])
    ∧ (Router.ServeHTTP routes "POST" "/v2/packages" = .handler .PackageApiCreate
      ∧ matchingHandlers routes "POST" "/v2/packages" = [.PackageApiCreate])
    ∧ (Router.ServeHTTP routes "GET" ("/v2/packages" ++ "/" ++ "hello") = .handler .PackageApiGet
      ∧ matchingHandlers routes "GET" ("/v2/packages" ++ "/" ++ "hello") = [.PackageApiGet])
    ∧ (Router.ServeHTTP routes "PUT" ("/v2/packages" ++ "/" ++ "hello")
          = .handler .PackageApiUpdate
      ∧ matchingHandlers routes "PUT" ("/v2/packages" ++ "/" ++ "hello") = [.PackageApiUpdate])
    ∧ (Router.ServeHTTP routes "DELETE" ("/v2/packages" ++ "/" ++ "hello")
          = .handler .PackageApiDelete
      ∧ matchingHandlers routes "DELETE" ("/v2/packages" ++ "/" ++ "hello")
          = [.PackageApiDelete]) :=
  resource_dispatch .packages "hello" (by decide) (by decide) (by decide) (by decide)

/-! ## Theorems: responders -/

theorem httpError_trace {σ : Type} (W : ResponseWriter σ) (msg : String) (code : Int)
    (c : Conn σ) :
    ∃ res, (httpError W msg code c).trace = c.trace ++ httpErrorEvents msg code res :=
  ⟨(W.write (utf8 (msg ++ "\n")) (W.writeHeader code
      (W.headerSet "X-Content-Type-Options" "nosniff"
        (W.headerSet "Content-Type" "text/plain; charset=utf-8" c.w)))).1,
    by simp [httpError, httpErrorEvents, Conn.headerSet, Conn.writeHeader, Conn.write]⟩

theorem respondWithError_status {σ : Type} (W : ResponseWriter σ)
    (classify : GoError → Int × String) (code : Int) (reason message : String) (c : Conn σ) :
    respondWithError W classify (.status code reason message) c
      = httpError W reason code
          ((c.emit (.respondWithError (.status code reason message))).emit .printStack) := rfl

theorem respondWithError_generic {σ : Type} (W : ResponseWriter σ)
    (classify : GoError → Int × String) (err : GoError) (h : err.isStatus = false)
    (c : Conn σ) :
    respondWithError W classify err c
      = httpError W (classify err).2 (classify err).1
          ((((c.emit (.respondWithError err)).emit .printStack).emit (.getHTTPError err)).emit
            (.logErrorf (errorLine (classify err).1 (classify err).2))) := by
  cases err with
  | status code reason message => simp [GoError.isStatus] at h
  | fission kind message => rfl
  | other text => rfl

theorem respondWithError_status_trace {σ : Type} (W : ResponseWriter σ)
    (classify : GoError → Int × String) (code : Int) (reason message : String) (c : Conn σ) :
    ∃ res, (respondWithError W classify (.status code reason message) c).trace
      = c.trace ++ [.respondWithError (.status code reason message), .printStack]
          ++ httpErrorEvents reason code res := by
  obtain ⟨res, h⟩ := httpError_trace W reason code
    ((c.emit (.respondWithError (.status code reason message))).emit .printStack)
  exact ⟨res, by rw [respondWithError_status, h]; simp [Conn.emit]⟩

theorem respondWithError_generic_trace {σ : Type} (W : ResponseWriter σ)
    (classify : GoError → Int × String) (err : GoError) (h : err.isStatus = false)
    (c : Conn σ) :
    ∃ res, (respondWithError W classify err c).trace
      = c.trace ++ [.respondWithError err, .printStack, .getHTTPError err,
            .logErrorf (errorLine (classify err).1 (classify err).2)]
          ++ httpErrorEvents (classify err).2 (classify err).1 res := by
  obtain ⟨res, h2⟩ := httpError_trace W (classify err).2 (classify err).1
    ((((c.emit (.respondWithError err)).emit .printStack).emit (.getHTTPError err)).emit
      (.logErrorf (errorLine (classify err).1 (classify err).2)))
  exact ⟨res, by rw [respondWithError_generic W classify err h, h2]; simp [Conn.emit]⟩

/-- C3. A backend status error with code `code` and reason `reason` is answered by
`http.Error` with exactly that reason and that code, after the stack capture; no call
of the generic classifier is made and the outcome is the same for every classifier; in
particular code 409 with reason `Conflict` is answered with 409 and `Conflict`. -/
theorem status_pass_through {σ : Type} (W : ResponseWriter σ)
    (classify : GoError → Int × String) (code : Int) (reason message : String) (c : Conn σ) :
    (∃ res new,
        new = [Event.respondWithError (.status code reason message), .printStack]
              ++ httpErrorEvents reason code res
        ∧ (respondWithError W classify (.status code reason message) c).trace = c.trace ++ new
        ∧ ∀ e ∈ new, e.isClassifierCall = false)
    ∧ (∀ other : GoError → Int × String,
        respondWithError W other (.status code reason message) c
          = respondWithError W classify (.status code reason message) c)
    ∧ (∃ res, (respondWithError W classify (.status 409 "Conflict" message) c).trace
        = c.trace ++ [.respondWithError (.status 409 "Conflict" message), .printStack,
            .headerSet "Content-Type" "text/plain; charset=utf-8",
            .headerSet "X-Content-Type-Options" "nosniff",
            .writeHeader 409,
            .write (utf8 ("Conflict" ++ "\n")) res]) := by
  refine ⟨?_, fun _ => rfl, ?_⟩
  · obtain ⟨res, h⟩ := respondWithError_status_trace W classify code reason message c
    refine ⟨res, _, rfl, ?_, ?_⟩
    · rw [h]; simp
    · intro e he
      simp only [httpErrorEvents, List.cons_append, List.nil_append, List.mem_cons,
        List.mem_singleton, List.not_mem_nil, or_false] at he
      rcases he with h | h | h | h | h | h <;> rw [h] <;> rfl
  · obtain ⟨res, h⟩ := respondWithError_status_trace W classify 409 "Conflict" message c
    exact ⟨res, by rw [h]; simp [httpErrorEvents]⟩

/-- Counterexample to C4: the backend status error 409 `Conflict` gets the stack capture
and the response, and no log record. -/
theorem status_error_not_logged :
    (respondWithError okWriter (fun _ => (500, "internal")) (.status 409 "Conflict" "")
        ⟨(), []⟩).trace
      = [.respondWithError (.status 409 "Conflict" ""), .printStack,
          .headerSet "Content-Type" "text/plain; charset=utf-8",
          .headerSet "X-Content-Type-Options" "nosniff",
          .writeHeader 409,
          .write (utf8 ("Conflict" ++ "\n")) none]
    ∧ (respondWithError okWriter (fun _ => (500, "internal")) (.status 409 "Conflict" "")
        ⟨(), []⟩).trace.any Event.isLog = false := by
  constructor
  · rfl
  · rfl

/-- C4, amended. For every error `respondWithError` captures the stack before it writes
anything; for an error that is not a backend status error it then logs the resolved
code and message and only then writes the response; for a backend status error the
stack capture is followed at once by the response with the code and reason of the
error; and `respondWithSuccess` emits no diagnostic when its write succeeds. -/
theorem diagnostics {σ : Type} (W : ResponseWriter σ) (classify : GoError → Int × String)
    (err : GoError) (resp : List UInt8) (c : Conn σ) :
    (∃ rest, (respondWithError W classify err c).trace
          = c.trace ++ Event.respondWithError err :: .printStack :: rest
        ∧ (err.isStatus = false → ∃ res,
            rest = .getHTTPError err
              :: .logErrorf (errorLine (classify err).1 (classify err).2)
              :: httpErrorEvents (classify err).2 (classify err).1 res)
        ∧ (err.isStatus = true → ∃ code reason message res,
            err = .status code reason message ∧ rest = httpErrorEvents reason code res))
    ∧ ((W.write resp (W.headerSet "Content-Type" "application/json; charset=utf-8" c.w)).1
          = none →
        (respondWithSuccess W classify resp c).trace
            = c.trace ++ [.respondWithSuccess,
                .headerSet "Content-Type" "application/json; charset=utf-8",
                .write resp none]
          ∧ ∀ e ∈ (respondWithSuccess W classify resp c).trace, e ∉ c.trace →
              e.isDiagnostic = false) := by
  constructor
  · cases err with
    | status code reason message =>
      obtain ⟨res, h⟩ := respondWithError_status_trace W classify code reason message c
      refine ⟨httpErrorEvents reason code res, by rw [h]; simp, ?_, ?_⟩
      · intro hs; simp [GoError.isStatus] at hs
      · intro _; exact ⟨code, reason, message, res, rfl, rfl⟩
    | fission kind message =>
      obtain ⟨res, h⟩ := respondWithError_generic_trace W classify (.fission kind message) rfl c
      refine ⟨_, by rw [h]; simp; rfl, ?_, ?_⟩
      · intro _; exact ⟨res, rfl⟩
      · intro hs; simp [GoError.isStatus] at hs
    | other text =>
      obtain ⟨res, h⟩ := respondWithError_generic_trace W classify (.other text) rfl c
      refine ⟨_, by rw [h]; simp; rfl, ?_, ?_⟩
      · intro _; exact ⟨res, rfl⟩
      · intro hs; simp [GoError.isStatus] at hs
  · intro hw
    have htr : (respondWithSuccess W classify resp c).trace
        = c.trace ++ [.respondWithSuccess,
            .headerSet "Content-Type" "application/json; charset=utf-8",
            .write resp none] := by
      simp [respondWithSuccess, Conn.write, Conn.headerSet, Conn.emit, hw]
    refine ⟨htr, ?_⟩
    intro e he hnot
    rw [htr] at he
    simp only [List.mem_append, List.mem_cons, List.mem_singleton, List.not_mem_nil,
      or_false] at he
    rcases he with h | h | h | h
    · exact absurd h hnot
    · rw [h]; rfl
    · rw [h]; rfl
    · rw [h]; rfl

/-- Witness of C4, amended: a generic error and an empty payload on a writer that
accepts every write. -/
theorem diagnostics_witness :
    (respondWithSuccess okWriter (fun _ => (500, "internal")) [] ⟨(), []⟩).trace
        = [] ++ [.respondWithSuccess,
            .headerSet "Content-Type" "application/json; charset=utf-8",
            .write [] none] :=
  ((diagnostics okWriter (fun _ => (500, "internal")) (.other "boom") [] ⟨(), []⟩).2 rfl).1

theorem respondWithError_entries {σ : Type} (W : ResponseWriter σ)
    (classify : GoError → Int × String) (err : GoError) (c : Conn σ) :
    ∃ tail, (respondWithError W classify err c).trace
        = c.trace ++ Event.respondWithError err :: .printStack :: tail
      ∧ (∀ e ∈ tail, e.isResponderEntry = false)
      ∧ (tail.filter Event.isWrite).length = 1
      ∧ (tail.filter Event.isWriteHeader).length = 1 := by
  cases hs : err.isStatus with
  | true =>
    cases err with
    | status code reason message =>
      obtain ⟨res, h⟩ := respondWithError_status_trace W classify code reason message c
      refine ⟨httpErrorEvents reason code res, by rw [h]; simp, ?_, rfl, rfl⟩
      intro e he
      simp only [httpErrorEvents, List.mem_cons, List.mem_singleton, List.not_mem_nil,
        or_false] at he
      rcases he with h | h | h | h <;> rw [h] <;> rfl
    | fission kind message => simp [GoError.isStatus] at hs
    | other text => simp [GoError.isStatus] at hs
  | false =>
    obtain ⟨res, h⟩ := respondWithError_generic_trace W classify err hs c
    refine ⟨.getHTTPError err :: .logErrorf (errorLine (classify err).1 (classify err).2)
      :: httpErrorEvents (classify err).2 (classify err).1 res, by rw [h]; simp, ?_, rfl, rfl⟩
    intro e he
    simp only [httpErrorEvents, List.mem_cons, List.mem_singleton, List.not_mem_nil,
      or_false] at he
    rcases he with h | h | h | h | h | h <;> rw [h] <;> rfl

/-- C6. When the payload write of `respondWithSuccess` returns an error, the call is
one run of `respondWithError` on that error, started on the connection as the failed
write left it; the trace of the whole call holds the entry into `respondWithSuccess`,
the failed write and one entry into `respondWithError` with that error, and after it
no further entry into either responder, one status line and one body write, whatever
that write returns. The call is a total function of the writer, so it always returns. -/
theorem write_failure_once {σ : Type} (W : ResponseWriter σ)
    (classify : GoError → Int × String) (resp : List UInt8) (c : Conn σ) (err : GoError)
    (hfail : (W.write resp
        (W.headerSet "Content-Type" "application/json; charset=utf-8" c.w)).1 = some err) :
    respondWithSuccess W classify resp c
        = respondWithError W classify err
            (((c.emit .respondWithSuccess).headerSet W "Content-Type"
              "application/json; charset=utf-8").write W resp).2
    ∧ ∃ tail, (respondWithSuccess W classify resp c).trace
          = c.trace ++ [.respondWithSuccess,
              .headerSet "Content-Type" "application/json; charset=utf-8",
              .write resp (some err), .respondWithError err, .printStack] ++ tail
        ∧ (∀ e ∈ tail, e.isResponderEntry = false)
        ∧ (tail.filter Event.isWrite).length = 1
        ∧ (tail.filter Event.isWriteHeader).length = 1
        ∧ (([Event.respondWithSuccess,
              .headerSet "Content-Type" "application/json; charset=utf-8",
              .write resp (some err), .respondWithError err, .printStack] ++ tail).filter
            Event.isErrorEntry) = [.respondWithError err] := by
  have h1 : respondWithSuccess W classify resp c
      = respondWithError W classify err
          (((c.emit .respondWithSuccess).headerSet W "Content-Type"
            "application/json; charset=utf-8").write W resp).2 := by
    simp [respondWithSuccess, Conn.write, Conn.headerSet, Conn.emit, hfail]
  refine ⟨h1, ?_⟩
  obtain ⟨tail, ht, hent, hw, hh⟩ := respondWithError_entries W classify err
    (((c.emit .respondWithSuccess).headerSet W "Content-Type"
      "application/json; charset=utf-8").write W resp).2
  refine ⟨tail, ?_, hent, hw, hh, ?_⟩
  · rw [h1, ht]
    simp [Conn.write, Conn.headerSet, Conn.emit, hfail]
  · have hnone : tail.filter Event.isErrorEntry = [] := by
      rw [List.filter_eq_nil_iff]
      intro e he
      have := hent e he
      cases e <;> simp_all [Event.isResponderEntry, Event.isErrorEntry]
    simp [List.filter_cons, Event.isErrorEntry, hnone]

/-- Witness of C6: an empty payload on a writer whose every write fails with a broken
pipe; the error response is attempted once and the call returns. -/
theorem write_failure_once_witness :
    respondWithSuccess (brokenWriter (.other "broken pipe")) (fun _ => (500, "internal")) []
        ⟨(), []⟩
      = respondWithError (brokenWriter (.other "broken pipe")) (fun _ => (500, "internal"))
          (.other "broken pipe")
          ((((⟨(), []⟩ : Conn Unit).emit .respondWithSuccess).headerSet
            (brokenWriter (.other "broken pipe")) "Content-Type"
            "application/json; charset=utf-8").write (brokenWriter (.other "broken pipe"))
            []).2 :=
  (write_failure_once (brokenWriter (.other "broken pipe")) (fun _ => (500, "internal")) []
    ⟨(), []⟩ (.other "broken pipe") rfl).1

/-- C7. With the classifier as the spec describes it, every not-found error without a
structured status is classified as status 404 with the message of the not-found kind,
whatever text it was built with, and `respondWithError` logs and writes exactly that
status and message; this holds for the error of `ApiVersionMismatchHandler` as for any
other text. -/
theorem generic_not_found {σ : Type} (W : ResponseWriter σ) (t : KindTable) (text : String)
    (c : Conn σ) :
    GetHTTPError t (MakeError ErrorNotFound text) = (404, t.message .notFound)
    ∧ GetHTTPError t (MakeError ErrorNotFound text)
        = GetHTTPError t (MakeError ErrorNotFound versionMismatchMessage)
    ∧ (∃ res, (respondWithError W (GetHTTPError t) (MakeError ErrorNotFound text) c).trace
        = c.trace ++ [.respondWithError (MakeError ErrorNotFound text), .printStack,
            .getHTTPError (MakeError ErrorNotFound text),
            .logErrorf (errorLine 404 (t.message .notFound))]
          ++ httpErrorEvents (t.message .notFound) 404 res) := by
  refine ⟨rfl, rfl, ?_⟩
  obtain ⟨res, h⟩ := respondWithError_generic_trace W (GetHTTPError t)
    (MakeError ErrorNotFound text) rfl c
  exact ⟨res, h⟩

/-- The format string of `HomeHandler` holds no `%`, so it is printed verbatim. -/
theorem homeBody_no_verb : '%' ∉ homeBody.data := by decide

/-- C8. For every method a request for `/` goes to `HomeHandler` and to no other
handler, also through the router as it serves, the path being in cleaned form; `HomeHandler` sets the content type to JSON in UTF-8, sets no status line and
writes once, the fixed greeting followed by a newline, which reads as a JSON object with
the keys `message` and `version`. -/
theorem home_endpoint (method : String) {σ : Type} (W : ResponseWriter σ) (c : Conn σ) :
    Router.Match routes method "/" = some .HomeHandler
    ∧ matchingHandlers routes method "/" = [.HomeHandler]
    ∧ (∃ res, (HomeHandler W c).trace
        = c.trace ++ [.headerSet "Content-Type" "application/json; charset=utf-8",
            .write (utf8 homeBody) res])
    ∧ (∀ e ∈ (HomeHandler W c).trace, e ∉ c.trace → e.isWriteHeader = false)
    ∧ homeBody
        = "\x7b\"message\": \"Fission API\", \"version\": \"0.2.1-rc2\"\x7d" ++ "\n"
    ∧ jsonObjectKeys homeBody = some ["message", "version"]
    ∧ Router.ServeHTTP routes method "/" = .handler .HomeHandler := by
  have hm : (⟨[.lit "/"], none, .HomeHandler⟩ : Route).matches method "/" = true := by
    simp [Route.matches, Route.matchesMethod, Route.matchesPath, matchPieces_single_lit]
  obtain ⟨h1, h2⟩ := handlers_of_matches _ method "/" (by decide) hm
  have htr : (HomeHandler W c).trace
      = c.trace ++ [.headerSet "Content-Type" "application/json; charset=utf-8",
          .write (utf8 homeBody)
            (W.write (utf8 homeBody)
              (W.headerSet "Content-Type" "application/json; charset=utf-8" c.w)).1] := by
    simp [HomeHandler, Conn.write, Conn.headerSet]
  refine ⟨h1, h2, ⟨_, htr⟩, ?_, by decide, by decide,
    (served_of_matches _ method "/" (by decide) (by decide) hm).1⟩
  intro e he hnot
  rw [htr] at he
  simp only [List.mem_append, List.mem_cons, List.mem_singleton, List.not_mem_nil,
    or_false] at he
  rcases he with h | h | h
  · exact absurd h hnot
  · rw [h]; rfl
  · rw [h]; rfl

/-! ## Theorems: configuration -/

theorem unicodeToUpper_sameLetter (table : Char → Char) (a b : Char) (h : sameLetter a b) :
    unicodeToUpper table a = unicodeToUpper table b := by
  have key : ∀ x y : Char, 65 ≤ x.toNat → x.toNat ≤ 90 → y.toNat = x.toNat + 32 →
      unicodeToUpper table x = unicodeToUpper table y := by
    intro x y h1 h2 h3
    have hx : unicodeToUpper table x = x := by
      unfold unicodeToUpper
      rw [if_pos (by omega), if_neg (by omega)]
    have hy : unicodeToUpper table y = x := by
      unfold unicodeToUpper
      rw [if_pos (by omega), if_pos (by omega)]
      have : y.toNat - 32 = x.toNat := by omega
      rw [this, Char.ofNat_toNat]
    rw [hx, hy]
  rcases h with h | ⟨h1, h2, h3⟩ | ⟨h1, h2, h3⟩
  · rw [h]
  · exact key a b h1 h2 h3
  · exact (key b a h1 h2 h3).symm

theorem ToUpper_differOnlyInCase (table : Char → Char) (s t : String)
    (h : differOnlyInCase s t) : ToUpper table s = ToUpper table t := by
  have key : ∀ l1 l2 : List Char, List.Forall₂ sameLetter l1 l2 →
      l1.map (unicodeToUpper table) = l2.map (unicodeToUpper table) := by
    intro l1 l2 hl
    induction hl with
    | nil => rfl
    | cons hab _ ih => simp [List.map_cons, unicodeToUpper_sameLetter table _ _ hab, ih]
  unfold ToUpper
  rw [key s.data t.data h]

theorem getLogDBConfig_eq (table : Char → Char) (dflt : String) (env : Env) (t : String) :
    getLogDBConfig table dflt env t
      = { httpURL :=
            match env (ToUpper table t ++ "_URL") with
            | some v => if v = "" then dflt else v
            | none => dflt,
          username := (env (ToUpper table t ++ "_USERNAME")).getD "",
          password := (env (ToUpper table t ++ "_PASSWORD")).getD "" } := by
  unfold getLogDBConfig Getenv
  cases h : env (ToUpper table t ++ "_URL") <;> simp [h]

/-- C5. `getLogDBConfig` is total and gives the triple read from the variables named
after the upper-cased type: the URL is the value of `_URL` when it is set and not
empty and the built-in default otherwise, the user name and password are the values
of `_USERNAME` and `_PASSWORD`, empty when unset. Names with the same upper-case form,
in particular names that differ only in the case of ASCII letters, give the same
triple; for `influxdb` with none of the three variables set the result is the default
URL with empty credentials, and with `INFLUXDB_URL=http://x` and `INFLUXDB_USERNAME=u`
only it is `http://x`, `u` and the empty password. -/
theorem logdb_config (table : Char → Char) (dflt : String) (env : Env) (t : String) :
    getLogDBConfig table dflt env t
      = { httpURL :=
            match env (ToUpper table t ++ "_URL") with
            | some v => if v = "" then dflt else v
            | none => dflt,
          username := (env (ToUpper table t ++ "_USERNAME")).getD "",
          password := (env (ToUpper table t ++ "_PASSWORD")).getD "" }
    ∧ (∀ t2, ToUpper table t2 = ToUpper table t →
        getLogDBConfig table dflt env t2 = getLogDBConfig table dflt env t)
    ∧ (∀ t2, differOnlyInCase t2 t →
        getLogDBConfig table dflt env t2 = getLogDBConfig table dflt env t)
    ∧ (env "INFLUXDB_URL" = none → env "INFLUXDB_USERNAME" = none →
        env "INFLUXDB_PASSWORD" = none →
        getLogDBConfig table dflt env "influxdb"
          = { httpURL := dflt, username := "", password := "" })
    ∧ (env "INFLUXDB_URL" = some "http://x" → env "INFLUXDB_USERNAME" = some "u" →
        env "INFLUXDB_PASSWORD" = none →
        getLogDBConfig table dflt env "influxdb"
          = { httpURL := "http://x", username := "u", password := "" }) := by
  have hup : ToUpper table "influxdb" = "INFLUXDB" := rfl
  have e1 : ("INFLUXDB" ++ "_URL" : String) = "INFLUXDB_URL" := rfl
  have e2 : ("INFLUXDB" ++ "_USERNAME" : String) = "INFLUXDB_USERNAME" := rfl
  have e3 : ("INFLUXDB" ++ "_PASSWORD" : String) = "INFLUXDB_PASSWORD" := rfl
  have hsame : ∀ t2, ToUpper table t2 = ToUpper table t →
      getLogDBConfig table dflt env t2 = getLogDBConfig table dflt env t := by
    intro t2 h
    rw [getLogDBConfig_eq, getLogDBConfig_eq, h]
  refine ⟨getLogDBConfig_eq table dflt env t, hsame,
    fun t2 h => hsame t2 (ToUpper_differOnlyInCase table t2 t h), ?_, ?_⟩
  · intro h1 h2 h3
    rw [getLogDBConfig_eq, hup, e1, e2, e3, h1, h2, h3]
    rfl
  · intro h1 h2 h3
    rw [getLogDBConfig_eq, hup, e1, e2, e3, h1, h2, h3]
    simp

/-- Witness of C5: the environment in which `INFLUXDB_URL=http://x` and
`INFLUXDB_USERNAME=u` are the only variables set. -/
theorem logdb_config_witness :
    getLogDBConfig id "http://influxdb:8086"
        (fun k => if k = "INFLUXDB_URL" then some "http://x"
          else if k = "INFLUXDB_USERNAME" then some "u" else none) "influxdb"
      = { httpURL := "http://x", username := "u", password := "" } :=
  (logdb_config id "http://influxdb:8086"
    (fun k => if k = "INFLUXDB_URL" then some "http://x"
      else if k = "INFLUXDB_USERNAME" then some "u" else none) "influxdb").2.2.2.2
    (by decide) (by decide) (by decide)

theorem TrimSuffix_slash_append (v : String) : TrimSuffix (v ++ "/") "/" = v := by
  have hd : ("/" : String).data = ['/'] := rfl
  have hs : HasSuffix (v ++ "/") "/" = true := by
    simp [HasSuffix, String.data_append, hd]
  simp [TrimSuffix, hs, String.data_append, hd]

theorem TrimSuffix_no_slash (u : String) (h : ∀ v : String, u ≠ v ++ "/") :
    TrimSuffix u "/" = u := by
  have hd : ("/" : String).data = ['/'] := rfl
  have hs : HasSuffix u "/" = false := by
    cases hb : HasSuffix u "/" with
    | false => rfl
    | true =>
      exfalso
      simp only [HasSuffix, List.isSuffixOf_iff_suffix, hd] at hb
      obtain ⟨pre, hpre⟩ := hb
      apply h ⟨pre⟩
      apply String.ext
      rw [String.data_append, hd, hpre]
  simp [TrimSuffix, hs]

theorem length_pos_of_ne_empty (u : String) (h : u ≠ "") : u.length > 0 := by
  cases u with
  | mk data =>
    cases data with
    | nil => exact absurd rfl h
    | cons a l => simp [String.length]

/-- C9. On a backing API that is not nil, `MakeAPI` stores `http://storagesvc` when
`STORAGE_SERVICE_URL` is unset or empty, the value without its last character when
the value ends in `/`, and the value itself otherwise; it changes nothing else of the
API and passes the error on; the stored URL is the same for every backing API, error
and environment with the same value of `STORAGE_SERVICE_URL`. -/
theorem storage_url {κ : Type} (env : Env) (api : API κ) (err : Option GoError) :
    ∃ url, MakeAPI env (some api, err)
        = some ({ fissionClient := api.fissionClient, storageServiceUrl := url }, err)
      ∧ (env "STORAGE_SERVICE_URL" = none ∨ env "STORAGE_SERVICE_URL" = some "" →
          url = "http://storagesvc")
      ∧ (∀ v, env "STORAGE_SERVICE_URL" = some (v ++ "/") → url = v)
      ∧ (∀ u, env "STORAGE_SERVICE_URL" = some u → u ≠ "" → (∀ v : String, u ≠ v ++ "/") →
          url = u)
      ∧ (∀ (env2 : Env) (api2 : API κ) (err2 : Option GoError),
          env2 "STORAGE_SERVICE_URL" = env "STORAGE_SERVICE_URL" →
          MakeAPI env2 (some api2, err2)
            = some ({ fissionClient := api2.fissionClient, storageServiceUrl := url }, err2)) := by
  have hd : ("/" : String).data = ['/'] := rfl
  have hpos : ∀ v : String, (v ++ "/").length > 0 := by
    intro v
    show (v ++ "/").data.length > 0
    rw [String.data_append, hd, List.length_append]
    exact Nat.succ_pos _
  cases h : env "STORAGE_SERVICE_URL" with
  | none =>
    refine ⟨"http://storagesvc", by simp [MakeAPI, Getenv, h], fun _ => rfl, ?_, ?_, ?_⟩
    · intro v hv; cases hv
    · intro u hu; cases hu
    · intro env2 api2 err2 h2
      simp [MakeAPI, Getenv, h2]
  | some u =>
    by_cases hu : u = ""
    · subst hu
      refine ⟨"http://storagesvc", by simp [MakeAPI, Getenv, h], fun _ => rfl, ?_, ?_, ?_⟩
      · intro v hv
        have hv2 : "" = v ++ "/" := Option.some.inj hv
        have := hpos v
        rw [← hv2] at this
        simp at this
      · intro u hu hne; exact absurd (Option.some.inj hu).symm hne
      · intro env2 api2 err2 h2
        simp [MakeAPI, Getenv, h2]
    · have hlen := length_pos_of_ne_empty u hu
      refine ⟨TrimSuffix u "/", by simp [MakeAPI, Getenv, h, hlen], ?_, ?_, ?_, ?_⟩
      · rintro (h1 | h1)
        · cases h1
        · exact absurd (Option.some.inj h1) hu
      · intro v hv
        rw [Option.some.inj hv, TrimSuffix_slash_append]
      · intro u2 hu2 _ hno
        rw [← Option.some.inj hu2] at hno ⊢
        exact TrimSuffix_no_slash u hno
      · intro env2 api2 err2 h2
        simp [MakeAPI, Getenv, h2, hlen]

/-- Witness of C9: the value `http://storage.local/` loses its trailing slash. -/
theorem storage_url_witness :
    ∃ url, MakeAPI (fun k => if k = "STORAGE_SERVICE_URL" then some ("http://storage.local" ++ "/")
              else none) (some (⟨(), ""⟩ : API Unit), none)
          = some ({ fissionClient := (), storageServiceUrl := url }, none)
        ∧ url = "http://storage.local" := by
  obtain ⟨url, h1, _, h3, _⟩ := storage_url
    (fun k => if k = "STORAGE_SERVICE_URL" then some ("http://storage.local" ++ "/") else none)
    (⟨(), ""⟩ : API Unit) none
  exact ⟨url, h1, h3 "http://storage.local" (by simp)⟩

/-- On a nil backing API the assignment of the URL panics, whatever the environment. -/
theorem MakeAPI_nil {κ : Type} (env : Env) (err : Option GoError) :
    MakeAPI env ((none : Option (API κ)), err) = none := rfl

end Controller

